import Mathlib

/-!
Shallow embedding of the receipt-processor service (src/app.py): the pydantic
field validators of the `Item` and `Receipt` models and the `calculate_points`
scorer.  Python `float` values are modelled exactly as IEEE-754 binary64
numbers: every binary64 value is a dyadic rational, carried here as a
mantissa/exponent pair of integers, and each operation rounds its exact
rational result to 53 significant bits with ties to even, overflowing to
infinity at 2^1024.  Subnormal values never arise in this program (every
nonzero magnitude reaching a rounding step is at least 1/500), so the
normal-range rounding rule is exact for every reachable computation.  The
rational value denoted by a float is recovered by `dyVal` in the proofs.
-/

set_option maxRecDepth 40000

namespace RP

/-- Fuel-based floor of log2; `natLog2 n` is the position of the highest set
bit of a positive natural number. -/
def natLog2Aux : Nat → Nat → Nat
  | 0, _ => 0
  | fuel + 1, n => if n < 2 then 0 else natLog2Aux fuel (n / 2) + 1

def natLog2 (n : Nat) : Nat := natLog2Aux n n

/-- Decide whether 2^k ≤ N / D for naturals N, D, by cross multiplication. -/
def le2pow (k : ℤ) (N D : ℕ) : Bool :=
  if 0 ≤ k then decide (2 ^ k.toNat * D ≤ N) else decide (D ≤ 2 ^ (-k).toNat * N)

/-- Floor of log2 of the positive fraction N / D: the unique e with
2^e ≤ N/D < 2^(e+1).  A candidate from the bit lengths of N and D is
corrected by direct comparison. -/
def fracLog2 (N D : ℕ) : ℤ :=
  if le2pow ((natLog2 N : ℤ) - (natLog2 D : ℤ) + 1) N D then
    (natLog2 N : ℤ) - (natLog2 D : ℤ) + 1
  else if le2pow ((natLog2 N : ℤ) - (natLog2 D : ℤ)) N D then
    (natLog2 N : ℤ) - (natLog2 D : ℤ)
  else (natLog2 N : ℤ) - (natLog2 D : ℤ) - 1

/-- Round the fraction N / D to the nearest natural number, ties to even: the
rounding used both by IEEE-754 binary64 arithmetic and by Python round(). -/
def rhfNat (N D : ℕ) : ℕ :=
  if 2 * (N % D) < D then N / D
  else if D < 2 * (N % D) then N / D + 1
  else if (N / D) % 2 = 0 then N / D else N / D + 1

/-- A nonnegative dyadic rational m * 2^t: the shape of every finite
nonnegative binary64 value. -/
structure Dy where
  m : ℕ
  t : ℤ
deriving DecidableEq

/-- A Python float as it occurs in this program: a finite binary64 value or
positive infinity.  Negative values, NaN and negative infinity are
unreachable: every float in app.py is obtained from an unsigned decimal
numeral or a product of such with 0.2. -/
inductive PFloat where
  | finite (d : Dy)
  | inf
deriving DecidableEq

/-- The rational value of a dyadic (proof-level interpretation). -/
def dyVal (d : Dy) : ℚ := (d.m : ℚ) * (2 : ℚ) ^ d.t

/-- Numerator of (N / D) * 2^s written as a fraction of naturals. -/
def scaleN (N : ℕ) (s : ℤ) : ℕ := if 0 ≤ s then N * 2 ^ s.toNat else N

/-- Denominator of (N / D) * 2^s written as a fraction of naturals. -/
def scaleD (D : ℕ) (s : ℤ) : ℕ := if 0 ≤ s then D else D * 2 ^ (-s).toNat

/-- The binary64 rounding of the positive fraction N / D before the overflow
check: mantissa from rounding (N/D) * 2^(52-e) to an integer, exponent e-52,
where e is the floor of log2 of N/D. -/
def roundFracCore (N D : ℕ) : Dy :=
  Dy.mk
    (rhfNat (scaleN N (52 - fracLog2 N D)) (scaleD D (52 - fracLog2 N D)))
    (fracLog2 N D - 52)

/-- Decide whether 2^E ≤ m * 2^t. -/
def dyGePow (d : Dy) (E : ℤ) : Bool := le2pow (E - d.t) d.m 1

/-- Correctly round the nonnegative fraction N / D (D ≥ 1) to binary64: round
to nearest with ties to even, overflowing to infinity at 2^1024. -/
def roundFrac (N D : ℕ) : PFloat :=
  if N = 0 then PFloat.finite (Dy.mk 0 0)
  else if dyGePow (roundFracCore N D) 1024 then PFloat.inf
  else PFloat.finite (roundFracCore N D)

/-- The binary64 value of the literal 0.2 in app.py line 106. -/
def pyPointTwo : PFloat := roundFrac 1 5

/-- Exact binary64 value of the decimal c/100 cents, as float() produces it. -/
def floatOfCents (c : ℕ) : PFloat := roundFrac c 100

/-- Python float multiplication on the values reachable here: finite times
finite is the correctly rounded exact product (a * b = (ma*mb/2^u) * 2^v, fed
to roundFrac); any infinite operand gives infinity (the other operand is 0.2
or a nonnegative value, never 0 next to inf, so NaN never arises). -/
def pyMul (a b : PFloat) : PFloat :=
  match a, b with
  | PFloat.finite x, PFloat.finite y =>
    roundFrac (scaleN (x.m * y.m) (x.t + y.t)) (scaleD 1 (x.t + y.t))
  | _, _ => PFloat.inf

/-- Python round() on a nonnegative dyadic: ties to even. -/
def dyRound (d : Dy) : ℕ :=
  if 0 ≤ d.t then d.m * 2 ^ d.t.toNat else rhfNat d.m (2 ^ (-d.t).toNat)

/-- Python round() on a float: ties to even on finite values; on infinity it
raises OverflowError, modelled as none. -/
def pyRound : PFloat → Option ℤ
  | PFloat.finite d => some ((dyRound d : ℕ) : ℤ)
  | PFloat.inf => none

/-- The test float(total) % 0.25 == 0 from app.py line 96.  For a finite
nonnegative v the remainder is exact (fmod by 2^-2 of a binary64 value is
representable), so it is zero iff 4*v = m * 2^(t+2) is an integer; for
infinity the remainder is NaN, which compares unequal to 0. -/
def pyQuarterRemZero : PFloat → Bool
  | PFloat.finite d =>
    if 0 ≤ d.t + 2 then true else decide (d.m % 2 ^ (-(d.t + 2)).toNat = 0)
  | PFloat.inf => false

/-- Numeric value of a decimal digit character. -/
def charVal (c : Char) : ℕ := c.toNat - 48

/-- Python str.strip() / float() whitespace (ASCII range): space, tab,
newline, carriage return, vertical tab, form feed. -/
def isPyWhitespace (c : Char) : Bool :=
  decide (c.toNat = 32 ∨ c.toNat = 9 ∨ c.toNat = 10 ∨ c.toNat = 13 ∨ c.toNat = 11 ∨ c.toNat = 12)

/-- A decimal digit (regex \d over the ASCII range). -/
def isDigitChar (c : Char) : Bool := decide (48 ≤ c.toNat ∧ c.toNat ≤ 57)

/-- A regex word character (ASCII range of Python's \w). -/
def isWordChar (c : Char) : Bool := c.isAlphanum || c == '_'

/-- The character class [\w\s\-&] of the retailer pattern (app.py line 37). -/
def isRetailerChar (c : Char) : Bool :=
  isWordChar c || isPyWhitespace c || c == '-' || c == '&'

/-- Python str.strip(): drop leading and trailing whitespace. -/
def stripChars (l : List Char) : List Char :=
  ((l.dropWhile isPyWhitespace).reverse.dropWhile isPyWhitespace).reverse

/-- Continuation of the pattern \d+\.\d\{2\}: more digits, then a dot and
exactly two digits ending the string. -/
def priceTail : List Char → Bool
  | [] => false
  | c :: rest =>
    if c = '.' then
      match rest with
      | [a, b] => isDigitChar a && isDigitChar b
      | _ => false
    else isDigitChar c && priceTail rest

/-- Full match of \d+\.\d\{2\} (app.py lines 21 and 73). -/
def priceCore : List Char → Bool
  | [] => false
  | c :: rest => isDigitChar c && priceTail rest

/-- Value in cents read by the pattern tail, accumulating the integer part. -/
def parseCentsTail (acc : ℕ) : List Char → Option ℕ
  | [] => none
  | c :: rest =>
    if c = '.' then
      match rest with
      | [a, b] =>
        if isDigitChar a && isDigitChar b then some (acc * 100 + charVal a * 10 + charVal b)
        else none
      | _ => none
    else if isDigitChar c then parseCentsTail (acc * 10 + charVal c) rest
    else none

def parseCentsList : List Char → Option ℕ
  | [] => none
  | c :: rest => if isDigitChar c then parseCentsTail (charVal c) rest else none

/-- Python float() restricted to the numeral shapes reachable through this
app's price and total fields: surrounding whitespace is stripped, then an
unsigned decimal with exactly two fraction digits is read; the result in
cents.  Other float() syntax (signs, exponents, inf, nan) cannot reach
calculate_points because the validators run first. -/
def parseCents (s : String) : Option ℕ := parseCentsList (stripChars s.data)

def pyFloatStr (s : String) : Option PFloat := (parseCents s).map floatOfCents

/-- Python re.match with a pattern of the form ^...$: the body must match
from the start of the string up to the $ anchor, and $ matches either at the
end of the string or just before a final newline. -/
def dollarQuirk (core : List Char → Bool) (s : String) : Bool :=
  core s.data ||
    (match s.data.reverse with
     | c :: rest => decide (c.toNat = 10) && core rest.reverse
     | [] => false)

/-- app.py lines 35-39: re.match over ^[\w\s\-&]+$. -/
def validate_retailer (v : String) : Bool :=
  dollarQuirk (fun l => !l.isEmpty && l.all isRetailerChar) v

/-- app.py lines 19-23: re.match over ^\d+\.\d\{2\}$. -/
def validate_price (v : String) : Bool := dollarQuirk priceCore v

/-- app.py lines 71-75: the total pattern, identical to the price pattern. -/
def validate_total (v : String) : Bool := dollarQuirk priceCore v

structure PDate where
  year : ℕ
  month : ℕ
  day : ℕ
deriving DecidableEq

def isLeapYear (y : ℕ) : Bool := (y % 4 == 0 && y % 100 != 0) || y % 400 == 0

def daysInMonth (y m : ℕ) : ℕ :=
  if m = 2 then (if isLeapYear y then 29 else 28)
  else if m = 4 ∨ m = 6 ∨ m = 9 ∨ m = 11 then 30
  else 31

/-- The pattern \d\{4\}-\d\{2\}-\d\{2\} as a full match. -/
def dateCore : List Char → Bool
  | [y1, y2, y3, y4, s1, m1, m2, s2, d1, d2] =>
    isDigitChar y1 && isDigitChar y2 && isDigitChar y3 && isDigitChar y4 &&
      decide (s1.toNat = 45) && isDigitChar m1 && isDigitChar m2 &&
      decide (s2.toNat = 45) && isDigitChar d1 && isDigitChar d2
  | _ => false

/-- datetime.strptime(v, "%Y-%m-%d").date(): exactly four digits, dash, two
digits, dash, two digits (anything longer, including a trailing newline,
raises "unconverted data remains"), the components forming a real proleptic
Gregorian date with year at least 1. -/
def parseDateList : List Char → Option PDate
  | [y1, y2, y3, y4, s1, m1, m2, s2, d1, d2] =>
    if dateCore [y1, y2, y3, y4, s1, m1, m2, s2, d1, d2] then
      if 1 ≤ charVal y1 * 1000 + charVal y2 * 100 + charVal y3 * 10 + charVal y4 ∧
          1 ≤ charVal m1 * 10 + charVal m2 ∧ charVal m1 * 10 + charVal m2 ≤ 12 ∧
          1 ≤ charVal d1 * 10 + charVal d2 ∧
          charVal d1 * 10 + charVal d2 ≤
            daysInMonth (charVal y1 * 1000 + charVal y2 * 100 + charVal y3 * 10 + charVal y4)
              (charVal m1 * 10 + charVal m2) then
        some ⟨charVal y1 * 1000 + charVal y2 * 100 + charVal y3 * 10 + charVal y4,
          charVal m1 * 10 + charVal m2, charVal d1 * 10 + charVal d2⟩
      else none
    else none
  | _ => none

def parseDate (s : String) : Option PDate := parseDateList s.data

/-- Comparison of datetime.date values. -/
def dateLe (a b : PDate) : Bool :=
  decide (a.year < b.year ∨ (a.year = b.year ∧
    (a.month < b.month ∨ (a.month = b.month ∧ a.day ≤ b.day))))

/-- app.py lines 41-54: the date regex, then strptime, then the
not-in-the-future comparison against the server's current date (a parameter
here); a failure of any step rejects the value. -/
def validate_purchaseDate (v : String) (today : PDate) : Bool :=
  dollarQuirk dateCore v &&
    (match parseDate v with
     | some d => dateLe d today
     | none => false)

/-- The pattern \d\{2\}:\d\{2\} as a full match. -/
def timeCore : List Char → Bool
  | [h1, h2, c, m1, m2] =>
    isDigitChar h1 && isDigitChar h2 && decide (c.toNat = 58) && isDigitChar m1 && isDigitChar m2
  | _ => false

/-- datetime.strptime(v, "%H:%M"): two digits, colon, two digits and nothing
after them, with hour at most 23 and minute at most 59. -/
def parseTimeList : List Char → Option (ℕ × ℕ)
  | [h1, h2, c, m1, m2] =>
    if timeCore [h1, h2, c, m1, m2] then
      if charVal h1 * 10 + charVal h2 ≤ 23 ∧ charVal m1 * 10 + charVal m2 ≤ 59 then
        some (charVal h1 * 10 + charVal h2, charVal m1 * 10 + charVal m2)
      else none
    else none
  | _ => none

def parseTime (s : String) : Option (ℕ × ℕ) := parseTimeList s.data

/-- app.py lines 56-69: the time regex, then strptime. -/
def validate_purchaseTime (v : String) : Bool :=
  dollarQuirk timeCore v && (parseTime v).isSome

structure Item where
  shortDescription : String
  price : String
deriving DecidableEq

structure Receipt where
  retailer : String
  purchaseDate : String
  purchaseTime : String
  items : List Item
  total : String
deriving DecidableEq

/-- Validation of one Item: pydantic checks that shortDescription is present
(any string, including the empty one) and runs validate_price. -/
def itemValid (it : Item) : Bool := validate_price it.price

/-- Validation of a whole Receipt submission against the server date. -/
def receiptValid (r : Receipt) (today : PDate) : Bool :=
  validate_retailer r.retailer && validate_purchaseDate r.purchaseDate today &&
    validate_purchaseTime r.purchaseTime && r.items.all itemValid && validate_total r.total

/-- Field-level pydantic errors: a missing required field or a failed
field_validator, tagged with the field name. -/
inductive FieldErr where
  | missing (field : String)
  | invalid (field : String)
deriving DecidableEq

/-- Construction of an Item from raw optional fields, as pydantic performs
it: all field errors are collected; a present shortDescription of any content
(empty included) passes, since the model declares it as a bare str. -/
def parseItem (sd pr : Option String) : Except (List FieldErr) Item :=
  match sd, pr with
  | some d, some p =>
    if validate_price p then Except.ok ⟨d, p⟩
    else Except.error [FieldErr.invalid ("price")]
  | none, some p =>
    Except.error (FieldErr.missing ("shortDescription") ::
      (if validate_price p then [] else [FieldErr.invalid ("price")]))
  | some _, none => Except.error [FieldErr.missing ("price")]
  | none, none =>
    Except.error [FieldErr.missing ("shortDescription"), FieldErr.missing ("price")]

/-- Rule 1 (app.py line 89): one point per alphanumeric retailer character. -/
def countAlnum (s : String) : ℕ := s.data.countP (fun c => c.isAlphanum)

/-- Rule 2 (app.py line 92): receipt.total.endswith with suffix dot-zero-zero. -/
def endsWithDot00 (s : String) : Bool :=
  match s.data.reverse with
  | '0' :: '0' :: '.' :: _ => true
  | _ => false

/-- Rule 3 (app.py lines 95-97) on the total string: none models the
(unreachable for validated totals) failure of float(). -/
def rule3Points (s : String) : Option ℤ :=
  (pyFloatStr s).map (fun f => if pyQuarterRemZero f then (25 : ℤ) else 0)

/-- Body of the rule 5 loop (app.py lines 103-106) for one item: if the
stripped description length is divisible by 3 (zero included), the rounded
product float(price) * 0.2 is added; round() on an infinite float raises,
giving none.  When the length test fails the price is never converted. -/
def itemPoints (it : Item) : Option ℤ :=
  if (stripChars it.shortDescription.data).length % 3 = 0 then
    match pyFloatStr it.price with
    | some f => pyRound (pyMul f pyPointTwo)
    | none => none
  else some 0

/-- The rule 5 loop: per-item contributions accumulated in order; an
exception at any item aborts the whole computation. -/
def rule5Points : List Item → Option ℤ
  | [] => some 0
  | it :: rest =>
    match itemPoints it, rule5Points rest with
    | some a, some b => some (a + b)
    | _, _ => none

/-- Rule 6 (app.py lines 108-111): six points when the day of month is odd. -/
def rule6Points (s : String) : Option ℤ :=
  (parseDate s).map (fun d => if d.day % 2 = 1 then (6 : ℤ) else 0)

/-- Rule 7 (app.py lines 113-116): ten points when the hour is 14 or 15. -/
def rule7Points (s : String) : Option ℤ :=
  (parseTime s).map (fun t => if t.1 = 14 ∨ t.1 = 15 then (10 : ℤ) else 0)

/-- app.py lines 77-118: the seven additive rules; none models an uncaught
exception inside calculate_points (date/time parse failure, or OverflowError
from round on an overflowed float). -/
def calculate_points (r : Receipt) : Option ℤ :=
  match rule3Points r.total, rule5Points r.items, rule6Points r.purchaseDate,
      rule7Points r.purchaseTime with
  | some p3, some p5, some p6, some p7 =>
    some ((countAlnum r.retailer : ℤ) + (if endsWithDot00 r.total then 50 else 0) + p3 +
      ((r.items.length / 2 : ℕ) * 5 : ℤ) + p5 + p6 + p7)
  | _, _, _, _ => none

/-- Modelled from the spec: the rounding rule claim C1 attributes to rule 5,
round(price * 0.2) on the exact decimal value with a fractional part of
exactly one half rounding away from zero; for a price of c cents the exact
product is c/500 of a point, so this is floor((2c + 500) / 1000). -/
def specRoundAwayFromZero (c : ℕ) : ℤ := ((2 * c + 500) / 1000 : ℕ)

/-- Modelled from the spec (boundary sentence of claim C5): rendering of a
date back to the YYYY-MM-DD form, to state that the current date itself
validates while the next day is rejected. -/
def formatDate (t : PDate) : String :=
  String.mk
    [Char.ofNat (48 + t.year / 1000 % 10), Char.ofNat (48 + t.year / 100 % 10),
     Char.ofNat (48 + t.year / 10 % 10), Char.ofNat (48 + t.year % 10), '-',
     Char.ofNat (48 + t.month / 10 % 10), Char.ofNat (48 + t.month % 10), '-',
     Char.ofNat (48 + t.day / 10 % 10), Char.ofNat (48 + t.day % 10)]

/-- A real proleptic Gregorian date with a four-digit year, as Python's
datetime.date accepts. -/
def validCalendarDate (t : PDate) : Bool :=
  decide (1 ≤ t.year ∧ t.year ≤ 9999 ∧ 1 ≤ t.month ∧ t.month ≤ 12 ∧
    1 ≤ t.day ∧ t.day ≤ daysInMonth t.year t.month)

/-- Modelled from the spec (boundary sentence of claim C5): the calendar day
after a date. -/
def nextDay (t : PDate) : PDate :=
  if t.day < daysInMonth t.year t.month then ⟨t.year, t.month, t.day + 1⟩
  else if t.month < 12 then ⟨t.year, t.month + 1, 1⟩
  else ⟨t.year + 1, 1, 1⟩

/-! ### Bit-length and binary-rounding lemmas -/

theorem natLog2Aux_spec : ∀ fuel n : ℕ, 1 ≤ n → n ≤ fuel →
    2 ^ natLog2Aux fuel n ≤ n ∧ n < 2 ^ (natLog2Aux fuel n + 1) := by
  intro fuel
  induction fuel with
  | zero => intro n h1 h2; omega
  | succ f ih =>
    intro n h1 h2
    by_cases hn : n < 2
    · have hone : n = 1 := by omega
      subst hone
      simp [natLog2Aux]
    · have hrec := ih (n / 2) (by omega) (by omega)
      have hstep : natLog2Aux (f + 1) n = natLog2Aux f (n / 2) + 1 := by
        simp [natLog2Aux, hn]
      rw [hstep]
      rw [pow_succ, pow_succ] at *
      omega

theorem natLog2_spec (n : ℕ) (h : 1 ≤ n) :
    2 ^ natLog2 n ≤ n ∧ n < 2 ^ (natLog2 n + 1) :=
  natLog2Aux_spec n n h le_rfl

theorem two_zpow_pos (e : ℤ) : (0 : ℚ) < (2 : ℚ) ^ e := zpow_pos (by norm_num) e

theorem two_zpow_le_two_zpow {a b : ℤ} (h : a ≤ b) : (2 : ℚ) ^ a ≤ (2 : ℚ) ^ b :=
  zpow_le_zpow_right₀ (by norm_num) h

theorem two_zpow_lt_two_zpow {a b : ℤ} (h : a < b) : (2 : ℚ) ^ a < (2 : ℚ) ^ b :=
  zpow_lt_zpow_right₀ (by norm_num) h

theorem two_zpow_mul (a b : ℤ) : (2 : ℚ) ^ a * (2 : ℚ) ^ b = (2 : ℚ) ^ (a + b) :=
  (zpow_add₀ (by norm_num : (2 : ℚ) ≠ 0) a b).symm

theorem two_zpow_natCast (u : ℕ) : (2 : ℚ) ^ ((u : ℕ) : ℤ) = ((2 ^ u : ℕ) : ℚ) := by
  push_cast
  exact zpow_natCast (2 : ℚ) u

theorem le2pow_iff (k : ℤ) (N D : ℕ) (hD : 1 ≤ D) :
    le2pow k N D = true ↔ (2 : ℚ) ^ k ≤ (N : ℚ) / (D : ℚ) := by
  have hdq : (0 : ℚ) < (D : ℚ) := by exact_mod_cast hD
  unfold le2pow
  split_ifs with hk
  · rw [decide_eq_true_eq, le_div_iff₀ hdq]
    have hc : (2 : ℚ) ^ k = ((2 ^ k.toNat : ℕ) : ℚ) := by
      rw [← two_zpow_natCast]
      congr 1
      omega
    rw [hc, show ((2 ^ k.toNat : ℕ) : ℚ) * (D : ℚ) = ((2 ^ k.toNat * D : ℕ) : ℚ) by push_cast; ring]
    exact Nat.cast_le.symm
  · rw [decide_eq_true_eq, le_div_iff₀ hdq]
    have hupos : (0 : ℚ) < ((2 ^ (-k).toNat : ℕ) : ℚ) := by positivity
    have hu : (2 : ℚ) ^ k = 1 / ((2 ^ (-k).toNat : ℕ) : ℚ) := by
      rw [← two_zpow_natCast, one_div, ← zpow_neg]
      congr 1
      omega
    rw [hu, one_div, inv_mul_eq_div, div_le_iff₀ hupos]
    rw [show (N : ℚ) * ((2 ^ (-k).toNat : ℕ) : ℚ) = ((2 ^ (-k).toNat * N : ℕ) : ℚ) by push_cast; ring]
    exact Nat.cast_le.symm

theorem fracLog2_spec (N D : ℕ) (hN : 1 ≤ N) (hD : 1 ≤ D) :
    (2 : ℚ) ^ fracLog2 N D ≤ (N : ℚ) / D ∧ (N : ℚ) / D < (2 : ℚ) ^ (fracLog2 N D + 1) := by
  obtain ⟨ha1, ha2⟩ := natLog2_spec N hN
  obtain ⟨hb1, hb2⟩ := natLog2_spec D hD
  have hdq : (0 : ℚ) < (D : ℚ) := by exact_mod_cast hD
  have hA1 : (2 : ℚ) ^ ((natLog2 N : ℕ) : ℤ) ≤ (N : ℚ) := by
    rw [two_zpow_natCast]
    exact_mod_cast ha1
  have hA2 : (N : ℚ) < (2 : ℚ) ^ (((natLog2 N : ℕ) : ℤ) + 1) := by
    rw [show (((natLog2 N : ℕ) : ℤ) + 1) = ((natLog2 N + 1 : ℕ) : ℤ) by push_cast; ring,
      two_zpow_natCast]
    exact_mod_cast ha2
  have hB1 : (2 : ℚ) ^ ((natLog2 D : ℕ) : ℤ) ≤ (D : ℚ) := by
    rw [two_zpow_natCast]
    exact_mod_cast hb1
  have hB2 : (D : ℚ) < (2 : ℚ) ^ (((natLog2 D : ℕ) : ℤ) + 1) := by
    rw [show (((natLog2 D : ℕ) : ℤ) + 1) = ((natLog2 D + 1 : ℕ) : ℤ) by push_cast; ring,
      two_zpow_natCast]
    exact_mod_cast hb2
  set la : ℤ := ((natLog2 N : ℕ) : ℤ)
  set lb : ℤ := ((natLog2 D : ℕ) : ℤ)
  have hlow : (2 : ℚ) ^ (la - lb - 1) < (N : ℚ) / D := by
    rw [show la - lb - 1 = la - (lb + 1) by ring, zpow_sub₀ (by norm_num : (2 : ℚ) ≠ 0),
      div_lt_div_iff₀ (two_zpow_pos _) hdq]
    calc (2 : ℚ) ^ la * (D : ℚ)
        < (2 : ℚ) ^ la * (2 : ℚ) ^ (lb + 1) := mul_lt_mul_of_pos_left hB2 (two_zpow_pos _)
      _ ≤ (N : ℚ) * (2 : ℚ) ^ (lb + 1) :=
          mul_le_mul_of_nonneg_right hA1 (le_of_lt (two_zpow_pos _))
  have hupp : (N : ℚ) / D < (2 : ℚ) ^ (la - lb + 1) := by
    rw [show la - lb + 1 = (la + 1) - lb by ring, zpow_sub₀ (by norm_num : (2 : ℚ) ≠ 0),
      div_lt_div_iff₀ hdq (two_zpow_pos _)]
    calc (N : ℚ) * (2 : ℚ) ^ lb
        < (2 : ℚ) ^ (la + 1) * (2 : ℚ) ^ lb := mul_lt_mul_of_pos_right hA2 (two_zpow_pos _)
      _ ≤ (2 : ℚ) ^ (la + 1) * (D : ℚ) :=
          mul_le_mul_of_nonneg_left hB1 (le_of_lt (two_zpow_pos _))
  unfold fracLog2
  by_cases h1 : le2pow (la - lb + 1) N D = true
  · rw [if_pos h1]
    refine ⟨(le2pow_iff _ _ _ hD).mp h1, ?_⟩
    have hstep : (2 : ℚ) ^ (la - lb + 1 + 1) = (2 : ℚ) ^ (la - lb + 1) * 2 := by
      rw [zpow_add_one₀ (by norm_num : (2 : ℚ) ≠ 0)]
    have hpos : (0 : ℚ) < (2 : ℚ) ^ (la - lb + 1) := two_zpow_pos _
    rw [hstep]
    linarith
  · rw [if_neg h1]
    by_cases h2 : le2pow (la - lb) N D = true
    · rw [if_pos h2]
      refine ⟨(le2pow_iff _ _ _ hD).mp h2, ?_⟩
      have := (le2pow_iff (la - lb + 1) N D hD).not.mp h1
      exact lt_of_not_le this
    · rw [if_neg h2]
      have hlt := lt_of_not_le ((le2pow_iff (la - lb) N D hD).not.mp h2)
      refine ⟨le_of_lt hlow, ?_⟩
      rw [sub_add_cancel]
      exact hlt

theorem fracLog2_le_of_lt (N D : ℕ) (hN : 1 ≤ N) (hD : 1 ≤ D) (E : ℤ)
    (h : (N : ℚ) / D < (2 : ℚ) ^ E) : fracLog2 N D ≤ E - 1 := by
  by_contra hc
  push_neg at hc
  have h1 : (2 : ℚ) ^ E ≤ (2 : ℚ) ^ fracLog2 N D := two_zpow_le_two_zpow (by omega)
  have h2 := (fracLog2_spec N D hN hD).1
  linarith

theorem rhfNat_scaled_close (N D : ℕ) (hD : 1 ≤ D) :
    |((rhfNat N D : ℕ) : ℚ) * (D : ℚ) - (N : ℚ)| ≤ (D : ℚ) / 2 := by
  have hNeq : ((N : ℚ)) = (D : ℚ) * ((N / D : ℕ) : ℚ) + ((N % D : ℕ) : ℚ) := by
    exact_mod_cast (Nat.div_add_mod N D).symm
  have hrD : ((N % D : ℕ) : ℚ) < (D : ℚ) := by
    exact_mod_cast Nat.mod_lt N (by omega)
  have hr0 : (0 : ℚ) ≤ ((N % D : ℕ) : ℚ) := by positivity
  unfold rhfNat
  split_ifs with h1 h2 h3
  · have h1q : 2 * ((N % D : ℕ) : ℚ) < (D : ℚ) := by exact_mod_cast h1
    rw [abs_le]
    constructor <;> rw [hNeq] <;> push_cast <;> linarith
  · have h2q : (D : ℚ) < 2 * ((N % D : ℕ) : ℚ) := by exact_mod_cast h2
    rw [abs_le]
    constructor <;> rw [hNeq] <;> push_cast <;> linarith
  · have h2q : 2 * ((N % D : ℕ) : ℚ) = (D : ℚ) := by
      have : 2 * (N % D) = D := by omega
      exact_mod_cast this
    rw [abs_le]
    constructor <;> rw [hNeq] <;> push_cast <;> linarith
  · have h2q : 2 * ((N % D : ℕ) : ℚ) = (D : ℚ) := by
      have : 2 * (N % D) = D := by omega
      exact_mod_cast this
    rw [abs_le]
    constructor <;> rw [hNeq] <;> push_cast <;> linarith

theorem rhfNat_close (N D : ℕ) (hD : 1 ≤ D) :
    |((rhfNat N D : ℕ) : ℚ) - (N : ℚ) / D| ≤ 1 / 2 := by
  have hdq : (0 : ℚ) < (D : ℚ) := by exact_mod_cast hD
  have hkey : ((rhfNat N D : ℕ) : ℚ) - (N : ℚ) / D =
      (((rhfNat N D : ℕ) : ℚ) * (D : ℚ) - (N : ℚ)) / D := by
    field_simp
  rw [hkey, abs_div, abs_of_pos hdq, div_le_iff₀ hdq]
  have := rhfNat_scaled_close N D hD
  linarith

theorem rhfNat_exact (N D : ℕ) (hD : 1 ≤ D) (h : D ∣ N) :
    ((rhfNat N D : ℕ) : ℚ) = (N : ℚ) / D := by
  obtain ⟨k, rfl⟩ := h
  have hD0 : 0 < D := by omega
  have hdq : (0 : ℚ) < (D : ℚ) := by exact_mod_cast hD
  have hmod : (D * k) % D = 0 := Nat.mul_mod_right D k
  have hdiv : (D * k) / D = k := Nat.mul_div_cancel_left k hD0
  unfold rhfNat
  rw [hmod, hdiv]
  rw [if_pos (by omega : 2 * 0 < D)]
  rw [eq_div_iff (ne_of_gt hdq)]
  push_cast
  ring

theorem scaleD_pos (D : ℕ) (hD : 1 ≤ D) (s : ℤ) : 1 ≤ scaleD D s := by
  unfold scaleD
  split_ifs
  · exact hD
  · calc 1 = 1 * 1 := by ring
      _ ≤ D * 2 ^ (-s).toNat := Nat.mul_le_mul hD (Nat.one_le_two_pow)

theorem scaleN_pos (N : ℕ) (hN : 1 ≤ N) (s : ℤ) : 1 ≤ scaleN N s := by
  unfold scaleN
  split_ifs
  · calc 1 = 1 * 1 := by ring
      _ ≤ N * 2 ^ s.toNat := Nat.mul_le_mul hN (Nat.one_le_two_pow)
  · exact hN

theorem scale_val (N D : ℕ) (hD : 1 ≤ D) (s : ℤ) :
    ((scaleN N s : ℕ) : ℚ) / ((scaleD D s : ℕ) : ℚ) = (N : ℚ) / D * (2 : ℚ) ^ s := by
  have hdq : (0 : ℚ) < (D : ℚ) := by exact_mod_cast hD
  unfold scaleN scaleD
  split_ifs with hs
  · push_cast
    rw [show ((2 : ℚ) ^ s.toNat) = (2 : ℚ) ^ s by rw [← zpow_natCast]; congr 1; omega]
    field_simp
  · push_cast
    rw [show ((2 : ℚ) ^ (-s).toNat) = (2 : ℚ) ^ (-s) by rw [← zpow_natCast]; congr 1; omega]
    rw [zpow_neg]
    have h2 : (0 : ℚ) < (2 : ℚ) ^ s := two_zpow_pos s
    field_simp

theorem dyVal_nonneg (d : Dy) : 0 ≤ dyVal d := by
  unfold dyVal
  positivity

theorem roundFracCore_err (N D : ℕ) (hD : 1 ≤ D) :
    |dyVal (roundFracCore N D) - (N : ℚ) / D| ≤ (2 : ℚ) ^ (fracLog2 N D - 53) := by
  have hsd := scaleD_pos D hD (52 - fracLog2 N D)
  have hclose := rhfNat_close (scaleN N (52 - fracLog2 N D)) (scaleD D (52 - fracLog2 N D)) hsd
  have hsv := scale_val N D hD (52 - fracLog2 N D)
  have hpos : (0 : ℚ) < (2 : ℚ) ^ (fracLog2 N D - 52) := two_zpow_pos _
  have hid : (2 : ℚ) ^ (52 - fracLog2 N D) * (2 : ℚ) ^ (fracLog2 N D - 52) = 1 := by
    rw [two_zpow_mul]
    norm_num
  have hkey : dyVal (roundFracCore N D) - (N : ℚ) / D =
      (((rhfNat (scaleN N (52 - fracLog2 N D)) (scaleD D (52 - fracLog2 N D)) : ℕ) : ℚ) -
        ((scaleN N (52 - fracLog2 N D) : ℕ) : ℚ) / ((scaleD D (52 - fracLog2 N D) : ℕ) : ℚ)) *
        (2 : ℚ) ^ (fracLog2 N D - 52) := by
    unfold dyVal roundFracCore
    rw [sub_mul, hsv, mul_assoc, hid, mul_one]
  rw [hkey, abs_mul, abs_of_pos hpos]
  have hsplit : (2 : ℚ) ^ (fracLog2 N D - 53) = 1 / 2 * (2 : ℚ) ^ (fracLog2 N D - 52) := by
    rw [show fracLog2 N D - 53 = (-1) + (fracLog2 N D - 52) by ring, ← two_zpow_mul]
    norm_num
  rw [hsplit]
  exact mul_le_mul_of_nonneg_right hclose (le_of_lt hpos)

theorem roundFracCore_exact (N D : ℕ) (hD : 1 ≤ D)
    (h : scaleD D (52 - fracLog2 N D) ∣ scaleN N (52 - fracLog2 N D)) :
    dyVal (roundFracCore N D) = (N : ℚ) / D := by
  have hsd := scaleD_pos D hD (52 - fracLog2 N D)
  have hex := rhfNat_exact _ _ hsd h
  have hsv := scale_val N D hD (52 - fracLog2 N D)
  have hid : (2 : ℚ) ^ (52 - fracLog2 N D) * (2 : ℚ) ^ (fracLog2 N D - 52) = 1 := by
    rw [two_zpow_mul]
    norm_num
  unfold dyVal roundFracCore
  rw [hex, hsv, mul_assoc, hid, mul_one]

theorem dyGePow_iff (d : Dy) (E : ℤ) : dyGePow d E = true ↔ (2 : ℚ) ^ E ≤ dyVal d := by
  unfold dyGePow
  rw [le2pow_iff _ _ _ (le_refl 1), Nat.cast_one, div_one]
  have h2 : (0 : ℚ) < (2 : ℚ) ^ d.t := two_zpow_pos _
  unfold dyVal
  constructor
  · intro h
    have h3 := mul_le_mul_of_nonneg_right h (le_of_lt h2)
    rwa [two_zpow_mul, sub_add_cancel] at h3
  · intro h
    have h3 := mul_le_mul_of_nonneg_right h (le_of_lt (two_zpow_pos (-d.t)))
    rw [two_zpow_mul, mul_assoc, two_zpow_mul,
      show E + -d.t = E - d.t by ring, show d.t + -d.t = 0 by ring, zpow_zero, mul_one] at h3
    exact h3

theorem roundFrac_finite_of_lt (N D : ℕ) (hN : 1 ≤ N) (hD : 1 ≤ D)
    (h : (N : ℚ) / D < (2 : ℚ) ^ (1023 : ℤ)) :
    roundFrac N D = PFloat.finite (roundFracCore N D) := by
  have he : fracLog2 N D ≤ 1022 := by
    have := fracLog2_le_of_lt N D hN hD 1023 h
    omega
  have herr := roundFracCore_err N D hD
  have hub : dyVal (roundFracCore N D) ≤ (N : ℚ) / D + (2 : ℚ) ^ (fracLog2 N D - 53) := by
    have := (abs_le.mp herr).2
    linarith
  have hsmall : (2 : ℚ) ^ (fracLog2 N D - 53) ≤ (2 : ℚ) ^ (1023 : ℤ) :=
    two_zpow_le_two_zpow (by omega)
  have hlt : dyVal (roundFracCore N D) < (2 : ℚ) ^ (1024 : ℤ) := by
    have hdouble : (2 : ℚ) ^ (1024 : ℤ) = (2 : ℚ) ^ (1023 : ℤ) * 2 := by
      rw [show (1024 : ℤ) = 1023 + 1 by ring, ← two_zpow_mul]
      norm_num
    calc dyVal (roundFracCore N D) ≤ (N : ℚ) / D + (2 : ℚ) ^ (fracLog2 N D - 53) := hub
      _ < (2 : ℚ) ^ (1023 : ℤ) + (2 : ℚ) ^ (1023 : ℤ) := add_lt_add_of_lt_of_le h hsmall
      _ = (2 : ℚ) ^ (1024 : ℤ) := by rw [hdouble]; ring
  have hfalse : ¬(dyGePow (roundFracCore N D) 1024 = true) := by
    rw [dyGePow_iff]
    exact not_le.mpr hlt
  unfold roundFrac
  rw [if_neg (by omega : ¬ N = 0), if_neg hfalse]

theorem roundFracCore_close (N D : ℕ) (hN : 1 ≤ N) (hD : 1 ≤ D) :
    |dyVal (roundFracCore N D) - (N : ℚ) / D| ≤ (N : ℚ) / D / 2 := by
  have herr := roundFracCore_err N D hD
  have h1 : (2 : ℚ) ^ (fracLog2 N D - 53) ≤ (N : ℚ) / D / 2 := by
    have ha : (2 : ℚ) ^ (fracLog2 N D - 53) =
        (2 : ℚ) ^ fracLog2 N D * (2 : ℚ) ^ (-53 : ℤ) := by
      rw [two_zpow_mul]
      ring_nf
    have hb := (fracLog2_spec N D hN hD).1
    have hc : (2 : ℚ) ^ (-53 : ℤ) ≤ 1 / 2 := by
      have hle := two_zpow_le_two_zpow (show (-53 : ℤ) ≤ -1 by omega)
      rw [show ((2 : ℚ) ^ (-1 : ℤ)) = 1 / 2 by norm_num] at hle
      exact hle
    calc (2 : ℚ) ^ (fracLog2 N D - 53)
        = (2 : ℚ) ^ fracLog2 N D * (2 : ℚ) ^ (-53 : ℤ) := ha
      _ ≤ (N : ℚ) / D * (1 / 2) :=
          mul_le_mul hb hc (le_of_lt (two_zpow_pos _)) (by positivity)
      _ = (N : ℚ) / D / 2 := by ring
  linarith [abs_nonneg (dyVal (roundFracCore N D) - (N : ℚ) / D)]

theorem two_zpow_toNat (z : ℤ) (h : 0 ≤ z) : ((2 : ℚ) ^ z.toNat) = (2 : ℚ) ^ z := by
  rw [← zpow_natCast]
  congr 1
  omega

theorem pyQuarterRemZero_finite_iff (d : Dy) :
    pyQuarterRemZero (PFloat.finite d) = true ↔ ∃ n : ℕ, ((n : ℕ) : ℚ) = 4 * dyVal d := by
  simp only [pyQuarterRemZero]
  split_ifs with ht
  · constructor
    · intro _
      refine ⟨d.m * 2 ^ (d.t + 2).toNat, ?_⟩
      unfold dyVal
      push_cast
      rw [two_zpow_toNat _ ht]
      rw [show (4 : ℚ) = (2 : ℚ) ^ (2 : ℤ) by norm_num]
      have hpow : (2 : ℚ) ^ (d.t + 2) = (2 : ℚ) ^ (2 : ℤ) * (2 : ℚ) ^ d.t := by
        rw [two_zpow_mul]
        congr 1
        ring
      rw [hpow]
      ring
    · intro _
      rfl
  · rw [decide_eq_true_eq]
    have hu : ((((-(d.t + 2)).toNat : ℕ)) : ℤ) = -(d.t + 2) := by omega
    constructor
    · intro hmod
      obtain ⟨k, hk⟩ := Nat.dvd_of_mod_eq_zero hmod
      refine ⟨k, ?_⟩
      unfold dyVal
      rw [hk]
      push_cast
      rw [show ((2 : ℚ) ^ ((-(d.t + 2)).toNat : ℕ)) = (2 : ℚ) ^ (-(d.t + 2)) by
        rw [← zpow_natCast, hu]]
      rw [show (4 : ℚ) = (2 : ℚ) ^ (2 : ℤ) by norm_num]
      have hpow : (2 : ℚ) ^ (2 : ℤ) * ((2 : ℚ) ^ (-(d.t + 2)) * (2 : ℚ) ^ d.t) = 1 := by
        rw [two_zpow_mul, two_zpow_mul, show (2 + (-(d.t + 2) + d.t)) = (0 : ℤ) by ring,
          zpow_zero]
      linear_combination (-((k : ℕ) : ℚ)) * hpow
    · rintro ⟨n, hn⟩
      unfold dyVal at hn
      have hm : ((d.m : ℕ) : ℚ) = ((n * 2 ^ ((-(d.t + 2)).toNat : ℕ) : ℕ) : ℚ) := by
        push_cast
        rw [show ((2 : ℚ) ^ ((-(d.t + 2)).toNat : ℕ)) = (2 : ℚ) ^ (-(d.t + 2)) by
          rw [← zpow_natCast, hu]]
        have hpow : (2 : ℚ) ^ (2 : ℤ) * ((2 : ℚ) ^ d.t * (2 : ℚ) ^ (-(d.t + 2))) = 1 := by
          rw [two_zpow_mul, two_zpow_mul, show (2 + (d.t + -(d.t + 2))) = (0 : ℤ) by ring,
            zpow_zero]
        have hn2 : (n : ℚ) = (2 : ℚ) ^ (2 : ℤ) * ((d.m : ℚ) * (2 : ℚ) ^ d.t) := by
          rw [hn]
          norm_num
        linear_combination (-((2 : ℚ) ^ (-(d.t + 2)))) * hn2 + (-((d.m : ℚ))) * hpow
      have hmn : d.m = n * 2 ^ ((-(d.t + 2)).toNat : ℕ) := by exact_mod_cast hm
      rw [hmn]
      exact Nat.mul_mod_left n _

/-- Core of rule 3 for totals of at most ten thousand billion dollars: the
float remainder test agrees with divisibility of the cent value by 25. -/
theorem floatOfCents_quarter (c : ℕ) (hc : c ≤ 10 ^ 15) :
    (pyQuarterRemZero (floatOfCents c) = true ↔ c % 25 = 0) := by
  rcases Nat.eq_zero_or_pos c with hc0 | hcpos
  · subst hc0
    decide
  · have hq : (0 : ℚ) < (c : ℚ) / 100 := by
      have hcq : (0 : ℚ) < (c : ℚ) := by exact_mod_cast hcpos
      positivity
    have hqlt : (c : ℚ) / 100 < (2 : ℚ) ^ (44 : ℤ) := by
      rw [div_lt_iff₀ (by norm_num : (0 : ℚ) < 100)]
      have h1 : ((c : ℚ)) ≤ 1000000000000000 := by exact_mod_cast hc
      have h2 : (2 : ℚ) ^ (44 : ℤ) = 17592186044416 := by
        rw [show ((44 : ℤ)) = ((44 : ℕ) : ℤ) from rfl, zpow_natCast]
        norm_num
      rw [h2]
      linarith
    have hqlt2 : (c : ℚ) / 100 < (2 : ℚ) ^ (1023 : ℤ) :=
      lt_trans hqlt (two_zpow_lt_two_zpow (by omega))
    have he : fracLog2 c 100 ≤ 43 := by
      have := fracLog2_le_of_lt c 100 hcpos (by omega) 44 hqlt
      omega
    have hfin : floatOfCents c = PFloat.finite (roundFracCore c 100) :=
      roundFrac_finite_of_lt c 100 hcpos (by omega) hqlt2
    have herr : |dyVal (roundFracCore c 100) - (c : ℚ) / 100| ≤ 1 / 1024 := by
      have h1 := roundFracCore_err c 100 (by omega)
      have h2 : (2 : ℚ) ^ (fracLog2 c 100 - 53) ≤ (2 : ℚ) ^ (-10 : ℤ) :=
        two_zpow_le_two_zpow (by omega)
      have h3 : (2 : ℚ) ^ (-10 : ℤ) = 1 / 1024 := by
        rw [zpow_neg, show ((10 : ℤ)) = ((10 : ℕ) : ℤ) from rfl, zpow_natCast]
        norm_num
      rw [h3] at h2
      linarith
    rw [hfin, pyQuarterRemZero_finite_iff]
    constructor
    · rintro ⟨n, hn⟩
      by_contra hmod
      have hveq : dyVal (roundFracCore c 100) = (n : ℚ) / 4 := by
        rw [eq_div_iff (by norm_num : (4 : ℚ) ≠ 0)]
        linarith [hn]
      have hdiff : (n : ℚ) / 4 - (c : ℚ) / 100 = ((25 * (n : ℤ) - (c : ℤ) : ℤ) : ℚ) / 100 := by
        push_cast
        ring
      have hne : 25 * (n : ℤ) - (c : ℤ) ≠ 0 := by omega
      have hint : (1 : ℤ) ≤ |25 * (n : ℤ) - (c : ℤ)| := Int.one_le_abs hne
      have habs : (1 : ℚ) / 100 ≤ |(n : ℚ) / 4 - (c : ℚ) / 100| := by
        rw [hdiff, abs_div, abs_of_pos (show (0 : ℚ) < 100 by norm_num)]
        have hcast : (1 : ℚ) ≤ |((25 * (n : ℤ) - (c : ℤ) : ℤ) : ℚ)| := by
          rw [← Int.cast_abs]
          exact_mod_cast hint
        linarith
      rw [hveq] at herr
      linarith
    · intro hmod
      have hck : c = 25 * (c / 25) := by omega
      have hs2 : 2 ≤ (52 - fracLog2 c 100).toNat := by omega
      have hdvd : scaleD 100 (52 - fracLog2 c 100) ∣ scaleN c (52 - fracLog2 c 100) := by
        unfold scaleD scaleN
        rw [if_pos (by omega : (0 : ℤ) ≤ 52 - fracLog2 c 100),
          if_pos (by omega : (0 : ℤ) ≤ 52 - fracLog2 c 100)]
        obtain ⟨w, hw⟩ : ∃ w, (52 - fracLog2 c 100).toNat = w + 2 :=
          ⟨(52 - fracLog2 c 100).toNat - 2, by omega⟩
        rw [hw]
        refine ⟨(c / 25) * 2 ^ w, ?_⟩
        calc c * 2 ^ (w + 2)
            = (25 * (c / 25)) * (2 ^ w * 4) := by rw [← hck, pow_add]; norm_num
          _ = 100 * ((c / 25) * 2 ^ w) := by ring
      have hexact : dyVal (roundFracCore c 100) = (c : ℚ) / 100 :=
        roundFracCore_exact c 100 (by omega) hdvd
      refine ⟨c / 25, ?_⟩
      rw [hexact]
      have hcc : ((c : ℚ)) = 25 * ((c / 25 : ℕ) : ℚ) := by exact_mod_cast hck
      rw [hcc]
      ring

/-! ### Lemmas about the validators and parsers -/

theorem digit_not_ws (c : Char) (h : isDigitChar c = true) : isPyWhitespace c = false := by
  unfold isDigitChar at h
  rw [decide_eq_true_eq] at h
  unfold isPyWhitespace
  rw [decide_eq_false_iff_not]
  omega

theorem newline_retailer (c : Char) (h : c.toNat = 10) : isRetailerChar c = true := by
  have hws : isPyWhitespace c = true := by
    unfold isPyWhitespace
    rw [decide_eq_true_eq]
    omega
  unfold isRetailerChar
  rw [hws]
  simp

theorem newline_ws (c : Char) (h : c.toNat = 10) : isPyWhitespace c = true := by
  unfold isPyWhitespace
  rw [decide_eq_true_eq]
  omega

theorem priceTail_parse : ∀ (l : List Char) (acc : ℕ), priceTail l = true →
    (parseCentsTail acc l).isSome = true := by
  intro l
  induction l with
  | nil => intro acc h; simp [priceTail] at h
  | cons c rest ih =>
    intro acc h
    by_cases hc : c = '.'
    · simp only [priceTail, if_pos hc] at h
      simp only [parseCentsTail, if_pos hc]
      rcases rest with _ | ⟨a, _ | ⟨b, _ | ⟨x, xs⟩⟩⟩
      · simp at h
      · simp at h
      · simp only [Bool.and_eq_true] at h
        simp [h.1, h.2]
      · simp at h
    · simp only [priceTail, if_neg hc] at h
      simp only [parseCentsTail, if_neg hc]
      rw [Bool.and_eq_true] at h
      obtain ⟨hd, ht⟩ := h
      rw [if_pos hd]
      exact ih _ ht

theorem priceCore_parse (l : List Char) (h : priceCore l = true) :
    (parseCentsList l).isSome = true := by
  cases l with
  | nil => simp [priceCore] at h
  | cons c rest =>
    simp only [priceCore] at h
    rw [Bool.and_eq_true] at h
    obtain ⟨hd, ht⟩ := h
    simp only [parseCentsList]
    rw [if_pos hd]
    exact priceTail_parse rest _ ht

theorem priceCore_head (l : List Char) (h : priceCore l = true) :
    ∃ c rest, l = c :: rest ∧ isDigitChar c = true := by
  cases l with
  | nil => simp [priceCore] at h
  | cons c rest =>
    simp only [priceCore] at h
    rw [Bool.and_eq_true] at h
    exact ⟨c, rest, rfl, h.1⟩

theorem priceTail_last : ∀ l : List Char, priceTail l = true →
    ∃ b, l.getLast? = some b ∧ isDigitChar b = true := by
  intro l
  induction l with
  | nil => intro h; simp [priceTail] at h
  | cons c rest ih =>
    intro h
    by_cases hc : c = '.'
    · simp only [priceTail, if_pos hc] at h
      rcases rest with _ | ⟨a, _ | ⟨b, _ | ⟨x, xs⟩⟩⟩
      · simp at h
      · simp at h
      · rw [Bool.and_eq_true] at h
        exact ⟨b, rfl, h.2⟩
      · simp at h
    · simp only [priceTail, if_neg hc] at h
      rw [Bool.and_eq_true] at h
      obtain ⟨b, hb1, hb2⟩ := ih h.2
      refine ⟨b, ?_, hb2⟩
      rcases rest with _ | ⟨x, xs⟩
      · simp [priceTail] at h
      · rw [List.getLast?_cons_cons]
        exact hb1

theorem priceCore_last (l : List Char) (h : priceCore l = true) :
    ∃ b, l.getLast? = some b ∧ isDigitChar b = true := by
  cases l with
  | nil => simp [priceCore] at h
  | cons c rest =>
    simp only [priceCore] at h
    rw [Bool.and_eq_true] at h
    obtain ⟨b, hb1, hb2⟩ := priceTail_last rest h.2
    refine ⟨b, ?_, hb2⟩
    rcases rest with _ | ⟨x, xs⟩
    · simp [priceTail] at h
    · rw [List.getLast?_cons_cons]
      exact hb1

theorem stripChars_id (l : List Char)
    (h1 : ∃ c rest, l = c :: rest ∧ isPyWhitespace c = false)
    (h2 : ∃ b, l.getLast? = some b ∧ isPyWhitespace b = false) :
    stripChars l = l := by
  obtain ⟨c, rest, rfl, hcw⟩ := h1
  obtain ⟨b, hb, hbw⟩ := h2
  unfold stripChars
  rw [List.dropWhile_cons, if_neg (by rw [hcw]; simp)]
  rcases hrev : (c :: rest).reverse with _ | ⟨x, xs⟩
  · exact absurd (congrArg List.length hrev) (by simp)
  · have hx : x = b := by
      have hh := List.head?_reverse (c :: rest)
      rw [hrev] at hh
      rw [hb] at hh
      exact (Option.some.inj hh)
    rw [List.dropWhile_cons, if_neg (by rw [hx, hbw]; simp)]
    rw [← hrev, List.reverse_reverse]

theorem validate_price_parseCents (s : String) (h : validate_price s = true) :
    (parseCents s).isSome = true := by
  unfold validate_price dollarQuirk at h
  rw [Bool.or_eq_true] at h
  unfold parseCents
  rcases h with h | h
  · rw [stripChars_id s.data ?_ ?_]
    · exact priceCore_parse _ h
    · obtain ⟨c, rest, he, hd⟩ := priceCore_head _ h
      exact ⟨c, rest, he, digit_not_ws c hd⟩
    · obtain ⟨b, hb, hd⟩ := priceCore_last _ h
      exact ⟨b, hb, digit_not_ws b hd⟩
  · rcases hrev : s.data.reverse with _ | ⟨c, rest⟩
    · rw [hrev] at h
      simp at h
    · rw [hrev] at h
      rw [Bool.and_eq_true, decide_eq_true_eq] at h
      obtain ⟨hc10, hcore⟩ := h
      have hdata : s.data = rest.reverse ++ [c] := by
        have hrr := congrArg List.reverse hrev
        rwa [List.reverse_reverse, List.reverse_cons] at hrr
      obtain ⟨d0, rest0, he0, hd0⟩ := priceCore_head _ hcore
      obtain ⟨b0, hb0, hbd0⟩ := priceCore_last _ hcore
      have hA : List.dropWhile isPyWhitespace s.data = s.data := by
        rw [hdata, he0, List.cons_append, List.dropWhile_cons,
          if_neg (by rw [digit_not_ws d0 hd0]; simp)]
      have hB : (s.data).reverse = c :: rest := by
        rw [hdata]
        simp
      have hC : List.dropWhile isPyWhitespace (c :: rest) = rest := by
        rw [List.dropWhile_cons, if_pos (by rw [newline_ws c hc10])]
        rcases hrest : rest with _ | ⟨r0, rs⟩
        · simp
        · have hr0 : r0 = b0 := by
            have hh := List.head?_reverse rest.reverse
            rw [List.reverse_reverse, hb0, hrest] at hh
            simp only [List.head?_cons] at hh
            exact Option.some.inj hh
          rw [List.dropWhile_cons, if_neg (by rw [hr0, digit_not_ws b0 hbd0]; simp)]
      have hstrip : stripChars s.data = rest.reverse := by
        unfold stripChars
        rw [hA, hB, hC]
      rw [hstrip]
      exact priceCore_parse _ hcore

theorem parseDateList_dateCore : ∀ (l : List Char) (d : PDate),
    parseDateList l = some d → dateCore l = true := by
  intro l d h
  unfold parseDateList at h
  split at h
  · split_ifs at h with hc hr
    · exact hc
    all_goals exact absurd h (by simp)
  · exact absurd h (by simp)

theorem validate_purchaseDate_parse (s : String) (today : PDate)
    (h : validate_purchaseDate s today = true) :
    ∃ d, parseDate s = some d ∧ dateLe d today = true := by
  unfold validate_purchaseDate at h
  rw [Bool.and_eq_true] at h
  obtain ⟨_, h2⟩ := h
  cases hp : parseDate s with
  | none => rw [hp] at h2; exact absurd h2 (by simp)
  | some d => rw [hp] at h2; exact ⟨d, rfl, h2⟩

theorem validate_purchaseTime_parse (s : String) (h : validate_purchaseTime s = true) :
    ∃ t, parseTime s = some t := by
  unfold validate_purchaseTime at h
  rw [Bool.and_eq_true] at h
  obtain ⟨_, h2⟩ := h
  cases hp : parseTime s with
  | none => rw [hp] at h2; simp at h2
  | some t => exact ⟨t, rfl⟩

/-! ### Date boundary lemmas -/

theorem digitChar_isDigit : ∀ k : ℕ, k < 10 → isDigitChar (Char.ofNat (48 + k)) = true := by
  decide

theorem digitChar_val : ∀ k : ℕ, k < 10 → charVal (Char.ofNat (48 + k)) = k := by
  decide

theorem daysInMonth_bounds (y m : ℕ) : 28 ≤ daysInMonth y m ∧ daysInMonth y m ≤ 31 := by
  unfold daysInMonth
  split_ifs <;> omega

theorem digitChar_isDigit10 (x : ℕ) : isDigitChar (Char.ofNat (48 + x % 10)) = true :=
  digitChar_isDigit (x % 10) (Nat.mod_lt x (by norm_num))

theorem digitChar_val10 (x : ℕ) : charVal (Char.ofNat (48 + x % 10)) = x % 10 :=
  digitChar_val (x % 10) (Nat.mod_lt x (by norm_num))

theorem parseDate_format (t : PDate) (hv : validCalendarDate t = true) :
    parseDate (formatDate t) = some t := by
  unfold validCalendarDate at hv
  rw [decide_eq_true_eq] at hv
  obtain ⟨h1, h2, h3, h4, h5, h6⟩ := hv
  unfold parseDate formatDate
  show parseDateList [Char.ofNat (48 + t.year / 1000 % 10), Char.ofNat (48 + t.year / 100 % 10),
    Char.ofNat (48 + t.year / 10 % 10), Char.ofNat (48 + t.year % 10), '-',
    Char.ofNat (48 + t.month / 10 % 10), Char.ofNat (48 + t.month % 10), '-',
    Char.ofNat (48 + t.day / 10 % 10), Char.ofNat (48 + t.day % 10)] = some t
  have hcore : dateCore [Char.ofNat (48 + t.year / 1000 % 10), Char.ofNat (48 + t.year / 100 % 10),
      Char.ofNat (48 + t.year / 10 % 10), Char.ofNat (48 + t.year % 10), '-',
      Char.ofNat (48 + t.month / 10 % 10), Char.ofNat (48 + t.month % 10), '-',
      Char.ofNat (48 + t.day / 10 % 10), Char.ofNat (48 + t.day % 10)] = true := by
    simp only [dateCore, digitChar_isDigit10, Bool.true_and, Bool.and_true]
    decide
  simp only [parseDateList, hcore, if_true]
  have hv1 : charVal (Char.ofNat (48 + t.year % 10)) = t.year % 10 := digitChar_val10 t.year
  have hv2 : charVal (Char.ofNat (48 + t.month % 10)) = t.month % 10 := digitChar_val10 t.month
  have hv3 : charVal (Char.ofNat (48 + t.day % 10)) = t.day % 10 := digitChar_val10 t.day
  rw [digitChar_val10, digitChar_val10, digitChar_val10, hv1, digitChar_val10, hv2,
    digitChar_val10, hv3]
  have hy : t.year / 1000 % 10 * 1000 + t.year / 100 % 10 * 100 + t.year / 10 % 10 * 10 +
      t.year % 10 = t.year := by omega
  have hmo : t.month / 10 % 10 * 10 + t.month % 10 = t.month := by omega
  have hdm := (daysInMonth_bounds t.year t.month).2
  have hdy : t.day / 10 % 10 * 10 + t.day % 10 = t.day := by omega
  rw [hy, hmo, hdy]
  rw [if_pos ⟨h1, h3, h4, h5, h6⟩]

theorem dateCore_format (t : PDate) (hv : validCalendarDate t = true) :
    dateCore (formatDate t).data = true :=
  parseDateList_dateCore (formatDate t).data t (parseDate_format t hv)

theorem dateLe_refl (t : PDate) : dateLe t t = true := by
  unfold dateLe
  rw [decide_eq_true_eq]
  right
  exact ⟨rfl, Or.inr ⟨rfl, le_rfl⟩⟩

theorem dateLe_nextDay_false (t : PDate) : dateLe (nextDay t) t = false := by
  unfold nextDay dateLe
  split_ifs <;> (rw [decide_eq_false_iff_not]; simp only []; omega)

theorem nextDay_valid (t : PDate) (hv : validCalendarDate t = true)
    (hy : (nextDay t).year ≤ 9999) : validCalendarDate (nextDay t) = true := by
  obtain ⟨y, m, d⟩ := t
  unfold validCalendarDate at hv ⊢
  rw [decide_eq_true_eq] at hv
  rw [decide_eq_true_eq]
  obtain ⟨h1, h2, h3, h4, h5, h6⟩ := hv
  unfold nextDay at hy ⊢
  dsimp only at hy h1 h2 h3 h4 h5 h6 ⊢
  split_ifs at hy ⊢ with ha hb
  · dsimp only at hy ⊢
    exact ⟨h1, hy, h3, h4, by omega, by omega⟩
  · dsimp only at hy ⊢
    have := (daysInMonth_bounds y (m + 1)).1
    exact ⟨h1, hy, by omega, by omega, by omega, by omega⟩
  · dsimp only at hy ⊢
    have := (daysInMonth_bounds (y + 1) 1).1
    exact ⟨by omega, hy, by omega, by omega, by omega, by omega⟩

/-! ### Scoring lemmas -/

theorem Dy_m_pos (d : Dy) (h : 0 < dyVal d) : 1 ≤ d.m := by
  by_contra hm
  push_neg at hm
  have hm0 : d.m = 0 := by omega
  unfold dyVal at h
  rw [hm0] at h
  simp at h

theorem pyPointTwo_eq : pyPointTwo = PFloat.finite (Dy.mk 7205759403792794 (-55)) := by decide

theorem pyPointTwo_val_le : dyVal (Dy.mk 7205759403792794 (-55)) ≤ 1 / 4 := by
  unfold dyVal
  have hm : ((7205759403792794 : ℕ) : ℚ) ≤ (2 : ℚ) ^ ((53 : ℕ) : ℤ) := by
    rw [two_zpow_natCast]
    norm_num
  have hstep : ((7205759403792794 : ℕ) : ℚ) * (2 : ℚ) ^ (-55 : ℤ) ≤
      (2 : ℚ) ^ ((53 : ℕ) : ℤ) * (2 : ℚ) ^ (-55 : ℤ) :=
    mul_le_mul_of_nonneg_right hm (le_of_lt (two_zpow_pos _))
  have hval : (2 : ℚ) ^ ((53 : ℕ) : ℤ) * (2 : ℚ) ^ (-55 : ℤ) = 1 / 4 := by
    rw [two_zpow_mul]
    rw [show (((53 : ℕ) : ℤ) + (-55 : ℤ)) = (-2 : ℤ) by rfl]
    norm_num
  rw [hval] at hstep
  calc ((Dy.mk 7205759403792794 (-55)).m : ℚ) * (2 : ℚ) ^ (Dy.mk 7205759403792794 (-55)).t
      = ((7205759403792794 : ℕ) : ℚ) * (2 : ℚ) ^ (-55 : ℤ) := by norm_num
    _ ≤ 1 / 4 := hstep

theorem pyPointTwo_val_pos : (0 : ℚ) < dyVal (Dy.mk 7205759403792794 (-55)) := by
  unfold dyVal
  have h1 : (0 : ℚ) < ((7205759403792794 : ℕ) : ℚ) := by norm_num
  have h2 := two_zpow_pos ((Dy.mk 7205759403792794 (-55)).t)
  positivity

theorem pyMul_pointTwo_some (c : ℕ) (hb : c ≤ 10 ^ 300) :
    (pyRound (pyMul (floatOfCents c) pyPointTwo)).isSome = true := by
  rcases Nat.eq_zero_or_pos c with rfl | hc
  · decide
  · have hq : (0 : ℚ) < (c : ℚ) / 100 := by
      have hcq : (0 : ℚ) < (c : ℚ) := by exact_mod_cast hc
      positivity
    have hqlt : (c : ℚ) / 100 < (2 : ℚ) ^ (1023 : ℤ) := by
      rw [div_lt_iff₀ (by norm_num : (0 : ℚ) < 100)]
      have hnat : (10 ^ 300 : ℕ) < 2 ^ 1023 * 100 := by decide
      have h1 : ((c : ℚ)) ≤ ((10 ^ 300 : ℕ) : ℚ) := by exact_mod_cast hb
      have h2 : ((10 ^ 300 : ℕ) : ℚ) < ((2 ^ 1023 * 100 : ℕ) : ℚ) := by exact_mod_cast hnat
      have h3 : ((2 ^ 1023 * 100 : ℕ) : ℚ) = (2 : ℚ) ^ (1023 : ℤ) * 100 := by
        push_cast
        rw [← zpow_natCast (2 : ℚ) 1023]
        norm_num
      linarith
    have hfin := roundFrac_finite_of_lt c 100 hc (by norm_num) hqlt
    have hclose := roundFracCore_close c 100 hc (by norm_num)
    have hva : dyVal (roundFracCore c 100) ≤ 3 / 2 * ((c : ℚ) / 100) := by
      have := (abs_le.mp hclose).2
      linarith
    have hva0 : (c : ℚ) / 100 / 2 ≤ dyVal (roundFracCore c 100) := by
      have := (abs_le.mp hclose).1
      linarith
    have ham : 1 ≤ (roundFracCore c 100).m := Dy_m_pos _ (by linarith)
    show (pyRound (pyMul (floatOfCents c) pyPointTwo)).isSome = true
    rw [show floatOfCents c = roundFrac c 100 from rfl, hfin, pyPointTwo_eq]
    simp only [pyMul]
    have hDD := scaleD_pos 1 (le_refl 1)
      ((roundFracCore c 100).t + (Dy.mk 7205759403792794 (-55)).t)
    have hNpos : 1 ≤ scaleN ((roundFracCore c 100).m * (Dy.mk 7205759403792794 (-55)).m)
        ((roundFracCore c 100).t + (Dy.mk 7205759403792794 (-55)).t) := by
      apply scaleN_pos
      calc 1 = 1 * 1 := by ring
        _ ≤ (roundFracCore c 100).m * (Dy.mk 7205759403792794 (-55)).m :=
          Nat.mul_le_mul ham (by norm_num)
    have hprodval : ((scaleN ((roundFracCore c 100).m * (Dy.mk 7205759403792794 (-55)).m)
          ((roundFracCore c 100).t + (Dy.mk 7205759403792794 (-55)).t) : ℕ) : ℚ) /
        ((scaleD 1 ((roundFracCore c 100).t + (Dy.mk 7205759403792794 (-55)).t) : ℕ) : ℚ) =
        dyVal (roundFracCore c 100) * dyVal (Dy.mk 7205759403792794 (-55)) := by
      rw [scale_val _ 1 (le_refl 1) _]
      unfold dyVal
      rw [Nat.cast_one, div_one]
      push_cast
      rw [← two_zpow_mul]
      ring
    have hprodlt : ((scaleN ((roundFracCore c 100).m * (Dy.mk 7205759403792794 (-55)).m)
          ((roundFracCore c 100).t + (Dy.mk 7205759403792794 (-55)).t) : ℕ) : ℚ) /
        ((scaleD 1 ((roundFracCore c 100).t + (Dy.mk 7205759403792794 (-55)).t) : ℕ) : ℚ) <
        (2 : ℚ) ^ (1023 : ℤ) := by
      rw [hprodval]
      have hmul : dyVal (roundFracCore c 100) * dyVal (Dy.mk 7205759403792794 (-55)) ≤
          (3 / 2 * ((c : ℚ) / 100)) * (1 / 4) :=
        mul_le_mul hva pyPointTwo_val_le (le_of_lt pyPointTwo_val_pos) (by linarith)
      nlinarith [hq, hqlt]
    rw [roundFrac_finite_of_lt _ _ hNpos hDD hprodlt]
    simp [pyRound]

theorem itemPoints_some (it : Item) (hv : validate_price it.price = true)
    (hb : ∀ c, parseCents it.price = some c → c ≤ 10 ^ 300) :
    (itemPoints it).isSome = true := by
  unfold itemPoints
  split_ifs with hcond
  · obtain ⟨c, hc⟩ := Option.isSome_iff_exists.mp (validate_price_parseCents _ hv)
    have hf : pyFloatStr it.price = some (floatOfCents c) := by
      unfold pyFloatStr
      rw [hc]
      rfl
    rw [hf]
    exact pyMul_pointTwo_some c (hb c hc)
  · simp

theorem rule5Points_some : ∀ l : List Item, (∀ it ∈ l, (itemPoints it).isSome = true) →
    (rule5Points l).isSome = true := by
  intro l
  induction l with
  | nil => intro h; simp [rule5Points]
  | cons it rest ih =>
    intro h
    obtain ⟨a, ha⟩ := Option.isSome_iff_exists.mp (h it (by simp))
    obtain ⟨b, hbb⟩ := Option.isSome_iff_exists.mp (ih (fun x hx => h x (by simp [hx])))
    simp [rule5Points, ha, hbb]

theorem itemPoints_nonneg (it : Item) (a : ℤ) (h : itemPoints it = some a) : 0 ≤ a := by
  unfold itemPoints at h
  split_ifs at h with hcond
  · cases hp : pyFloatStr it.price with
    | none =>
      rw [hp] at h
      have h2 : (none : Option ℤ) = some a := h
      simp at h2
    | some f =>
      rw [hp] at h
      have h2 : pyRound (pyMul f pyPointTwo) = some a := h
      cases hm : pyMul f pyPointTwo with
      | inf => rw [hm] at h2; simp [pyRound] at h2
      | finite d =>
        rw [hm] at h2
        simp only [pyRound, Option.some.injEq] at h2
        rw [← h2]
        exact Int.natCast_nonneg _
  · rw [← Option.some.inj h]

theorem rule5Points_nonneg : ∀ (l : List Item) (p : ℤ), rule5Points l = some p → 0 ≤ p := by
  intro l
  induction l with
  | nil =>
    intro p h
    simp only [rule5Points, Option.some.injEq] at h
    omega
  | cons it rest ih =>
    intro p h
    simp only [rule5Points] at h
    cases ha : itemPoints it with
    | none => rw [ha] at h; exact absurd h (by simp)
    | some a =>
      cases hb : rule5Points rest with
      | none => rw [ha, hb] at h; exact absurd h (by simp)
      | some b =>
        rw [ha, hb] at h
        simp only [Option.some.injEq] at h
        have h1 := itemPoints_nonneg it a ha
        have h2 := ih b hb
        omega

theorem rule3Points_nonneg (s : String) (p : ℤ) (h : rule3Points s = some p) : 0 ≤ p := by
  unfold rule3Points at h
  cases hf : pyFloatStr s with
  | none => rw [hf] at h; simp at h
  | some f =>
    rw [hf] at h
    simp only [Option.map_some'] at h
    rw [← Option.some.inj h]
    split_ifs <;> norm_num

theorem rule6Points_nonneg (s : String) (p : ℤ) (h : rule6Points s = some p) : 0 ≤ p := by
  unfold rule6Points at h
  cases hf : parseDate s with
  | none => rw [hf] at h; simp at h
  | some d =>
    rw [hf] at h
    simp only [Option.map_some'] at h
    rw [← Option.some.inj h]
    split_ifs <;> norm_num

theorem rule7Points_nonneg (s : String) (p : ℤ) (h : rule7Points s = some p) : 0 ≤ p := by
  unfold rule7Points at h
  cases hf : parseTime s with
  | none => rw [hf] at h; simp at h
  | some t =>
    rw [hf] at h
    simp only [Option.map_some'] at h
    rw [← Option.some.inj h]
    split_ifs <;> norm_num

theorem rule5Points_perm : ∀ l1 l2 : List Item, l1.Perm l2 →
    rule5Points l1 = rule5Points l2 := by
  intro l1 l2 h
  induction h with
  | nil => rfl
  | cons x _ ih => simp only [rule5Points, ih]
  | swap x y l =>
    cases hx : itemPoints x <;> cases hy : itemPoints y <;> cases hl : rule5Points l <;>
      simp [rule5Points, hx, hy, hl] <;> ring
  | trans _ _ ih1 ih2 => rw [ih1, ih2]

theorem calculate_points_eq (r : Receipt) (p3 p5 p6 p7 : ℤ)
    (h3 : rule3Points r.total = some p3) (h5 : rule5Points r.items = some p5)
    (h6 : rule6Points r.purchaseDate = some p6) (h7 : rule7Points r.purchaseTime = some p7) :
    calculate_points r = some ((countAlnum r.retailer : ℤ) +
      (if endsWithDot00 r.total then 50 else 0) + p3 +
      ((r.items.length / 2 : ℕ) * 5 : ℤ) + p5 + p6 + p7) := by
  unfold calculate_points
  rw [h3, h5, h6, h7]

theorem calculate_points_some_inv (r : Receipt) (p : ℤ) (h : calculate_points r = some p) :
    ∃ p3 p5 p6 p7, rule3Points r.total = some p3 ∧ rule5Points r.items = some p5 ∧
      rule6Points r.purchaseDate = some p6 ∧ rule7Points r.purchaseTime = some p7 ∧
      p = (countAlnum r.retailer : ℤ) + (if endsWithDot00 r.total then 50 else 0) + p3 +
        ((r.items.length / 2 : ℕ) * 5 : ℤ) + p5 + p6 + p7 := by
  unfold calculate_points at h
  cases h3 : rule3Points r.total <;> rw [h3] at h <;>
    cases h5 : rule5Points r.items <;> rw [h5] at h <;>
    cases h6 : rule6Points r.purchaseDate <;> rw [h6] at h <;>
    cases h7 : rule7Points r.purchaseTime <;> rw [h7] at h
  all_goals first
    | exact Option.noConfusion h
    | exact ⟨_, _, _, _, rfl, rfl, rfl, rfl, (Option.some.inj h).symm⟩

/-! ### Claim theorems -/

/-- Claim C1, amended: rule 5 computes its bonus per item — Python round
(ties to even) applied to the binary64 product float(price) * 0.2 — and sums
the already-rounded per-item contributions; it never rounds a sum. -/
theorem claim1_rule5_per_item_sum (l : List Item) (h : ∀ it ∈ l, itemPoints it ≠ none) :
    rule5Points l = some ((l.map (fun it =>
      if (stripChars it.shortDescription.data).length % 3 = 0 then
        (pyRound (pyMul ((pyFloatStr it.price).getD PFloat.inf) pyPointTwo)).getD 0
      else 0)).sum) := by
  induction l with
  | nil => simp [rule5Points]
  | cons it rest ih =>
    have hit := h it (by simp)
    have hrest := ih (fun x hx => h x (by simp [hx]))
    by_cases hcond : (stripChars it.shortDescription.data).length % 3 = 0
    · cases hp : pyFloatStr it.price with
      | none => exact absurd (by simp [itemPoints, hcond, hp]) hit
      | some f =>
        cases hr : pyRound (pyMul f pyPointTwo) with
        | none => exact absurd (by simp [itemPoints, hcond, hp, hr]) hit
        | some a =>
          have hip : itemPoints it = some a := by simp [itemPoints, hcond, hp, hr]
          simp only [rule5Points, hip, hrest, List.map_cons, List.sum_cons]
          rw [if_pos hcond]
          simp [hp, hr]
    · have hip : itemPoints it = some 0 := by simp [itemPoints, hcond]
      simp only [rule5Points, hip, hrest, List.map_cons, List.sum_cons]
      rw [if_neg hcond]
      try simp

/-- Witness for C1 on a concrete list: the per-item rounded contributions of
prices 12.50 (→ 2) and 2.50 (→ 0) add to 2. -/
theorem claim1_witness :
    rule5Points [Item.mk ("abc") ("12.50"), Item.mk ("defghi") ("2.50")] = some 2 := by
  have h := claim1_rule5_per_item_sum
    [Item.mk ("abc") ("12.50"), Item.mk ("defghi") ("2.50")] (by decide)
  rw [h]
  decide

/-- Counterexample to C1 as stated: a validated receipt with one item priced
12.50 and description of length 3 scores 2 points from rule 5 (Python rounds
the double 12.5 * 0.2 = 2.5 to the even 2), while rounding half away from
zero would give 3. -/
theorem claim1_counterexample :
    receiptValid (Receipt.mk ("&") ("2022-01-02") ("13:01")
      [Item.mk ("abc") ("12.50")] ("0.10")) (PDate.mk 2025 1 1) = true ∧
    calculate_points (Receipt.mk ("&") ("2022-01-02") ("13:01")
      [Item.mk ("abc") ("12.50")] ("0.10")) = some 2 ∧
    parseCents ("12.50") = some 1250 ∧ specRoundAwayFromZero 1250 = 3 := by
  refine ⟨by decide, by decide, by decide, by decide⟩

/-- Claim C2, amended: the rule 5 bonus for an item is granted exactly when
the stripped description length is divisible by 3 — zero length included, so
whitespace-only and empty descriptions do receive it.  Shown at the
representative price 10.00, whose bonus is 2. -/
theorem claim2_bonus_iff_length_mod3 (desc : String) :
    itemPoints (Item.mk desc ("10.00")) =
      some (if (stripChars desc.data).length % 3 = 0 then 2 else 0) := by
  unfold itemPoints
  dsimp only
  by_cases hc : (stripChars desc.data).length % 3 = 0
  · rw [if_pos hc, if_pos hc]
    decide
  · rw [if_neg hc, if_neg hc]

/-- Counterexample to C2 as stated: a validated receipt whose only item has a
whitespace-only description (stripped length 0) still receives the rule 5
bonus of round(10.00 * 0.2) = 2 points. -/
theorem claim2_counterexample :
    receiptValid (Receipt.mk ("&") ("2022-01-02") ("13:01")
      [Item.mk ("   ") ("10.00")] ("0.10")) (PDate.mk 2025 1 1) = true ∧
    calculate_points (Receipt.mk ("&") ("2022-01-02") ("13:01")
      [Item.mk ("   ") ("10.00")] ("0.10")) = some 2 ∧
    (stripChars ("   ").data).length = 0 := by
  refine ⟨by decide, by decide, by decide⟩

/-- Claim C3, amended: for totals of at most 10^15 cents the scorer adds the
25-point rule 3 bonus exactly when the cent value is divisible by 25; for
astronomically large totals the float comparison diverges (see the
counterexample). -/
theorem claim3_quarter_iff_mod25 (s : String) (c : ℕ)
    (hc : parseCents s = some c) (hb : c ≤ 10 ^ 15) :
    rule3Points s = some (if c % 25 = 0 then 25 else 0) := by
  unfold rule3Points pyFloatStr
  rw [hc]
  have hiff := floatOfCents_quarter c hb
  by_cases hm : c % 25 = 0
  · rw [if_pos hm]
    have htrue : pyQuarterRemZero (floatOfCents c) = true := hiff.mpr hm
    simp [htrue]
  · rw [if_neg hm]
    have hfalse : pyQuarterRemZero (floatOfCents c) = false := by
      cases hq : pyQuarterRemZero (floatOfCents c)
      · rfl
      · exact absurd (hiff.mp hq) hm
    simp [hfalse]

/-- Witness for C3 at total 25.00: 2500 cents is a multiple of 25 and the
scorer adds 25 points. -/
theorem claim3_witness : rule3Points ("25.00") = some (if 2500 % 25 = 0 then 25 else 0) :=
  claim3_quarter_iff_mod25 ("25.00") 2500 (by decide) (by norm_num)

/-- Counterexample to C3 as stated: the total 18014398509481984.07 (2^54
dollars plus 7 cents) converts to the double 2^54 exactly, so the float
remainder test grants the 25 points although the cent value is 7 mod 25. -/
theorem claim3_counterexample :
    parseCents ("18014398509481984.07") = some 1801439850948198407 ∧
    rule3Points ("18014398509481984.07") = some 25 ∧
    1801439850948198407 % 25 = 7 := by
  refine ⟨by decide, by decide, by decide⟩

/-- Claim C4, amended: an absent shortDescription is rejected with a field
error naming shortDescription, but a present empty string passes validation —
pydantic enforces presence, not non-emptiness. -/
theorem claim4_missing_description :
    (∀ pr : Option String, ∃ errs, parseItem none pr = Except.error errs ∧
      FieldErr.missing ("shortDescription") ∈ errs) ∧
    (∀ d p : String, validate_price p = true →
      parseItem (some d) (some p) = Except.ok (Item.mk d p)) := by
  constructor
  · intro pr
    cases pr with
    | none => exact ⟨_, rfl, by simp⟩
    | some p => exact ⟨_, rfl, by simp⟩
  · intro d p hp
    have hdef : parseItem (some d) (some p) =
        if validate_price p = true then Except.ok (Item.mk d p)
        else Except.error [FieldErr.invalid ("price")] := rfl
    rw [hdef, if_pos hp]

/-- Witness for C4: a present description and a well-formed price construct
the Item. -/
theorem claim4_witness :
    parseItem (some ("abc")) (some ("1.00")) = Except.ok (Item.mk ("abc") ("1.00")) :=
  claim4_missing_description.2 ("abc") ("1.00") (by decide)

/-- Counterexample to C4 as stated: the empty shortDescription is accepted by
validation, producing an Item with an empty description. -/
theorem claim4_counterexample :
    parseItem (some ("")) (some ("1.00")) = Except.ok (Item.mk ("") ("1.00")) ∧
    itemValid (Item.mk ("") ("1.00")) = true := by
  refine ⟨rfl, by decide⟩

/-- Claim C5: purchaseDate validation succeeds exactly when the string fully
matches the date pattern, parses as a real calendar date, and is not strictly
after the server's current date; in particular the current date itself
validates and the next calendar day is rejected. -/
theorem claim5_purchaseDate_validation :
    (∀ (s : String) (today : PDate),
      validate_purchaseDate s today = true ↔
        (dateCore s.data = true ∧ ∃ d, parseDate s = some d ∧ dateLe d today = true)) ∧
    (∀ t : PDate, validCalendarDate t = true →
      validate_purchaseDate (formatDate t) t = true) ∧
    (∀ t : PDate, validCalendarDate t = true → (nextDay t).year ≤ 9999 →
      validate_purchaseDate (formatDate (nextDay t)) t = false) := by
  refine ⟨?_, ?_, ?_⟩
  · intro s today
    constructor
    · intro h
      obtain ⟨d, hp, hle⟩ := validate_purchaseDate_parse s today h
      exact ⟨parseDateList_dateCore s.data d hp, d, hp, hle⟩
    · rintro ⟨hcore, d, hp, hle⟩
      unfold validate_purchaseDate
      rw [Bool.and_eq_true]
      constructor
      · unfold dollarQuirk
        rw [Bool.or_eq_true]
        exact Or.inl hcore
      · rw [hp]
        exact hle
  · intro t hv
    unfold validate_purchaseDate
    rw [Bool.and_eq_true]
    refine ⟨?_, ?_⟩
    · unfold dollarQuirk
      rw [Bool.or_eq_true]
      exact Or.inl (dateCore_format t hv)
    · rw [parseDate_format t hv]
      exact dateLe_refl t
  · intro t hv hy
    have hp := parseDate_format (nextDay t) (nextDay_valid t hv hy)
    unfold validate_purchaseDate
    have hm : (match parseDate (formatDate (nextDay t)) with
        | some d => dateLe d t
        | none => false) = false := by
      rw [hp]
      exact dateLe_nextDay_false t
    rw [hm, Bool.and_false]

/-- Witness for C5: March 15th 2025 validates against itself as the server
date, and March 16th 2025 is rejected against March 15th. -/
theorem claim5_witness :
    validate_purchaseDate (formatDate (PDate.mk 2025 3 15)) (PDate.mk 2025 3 15) = true ∧
    validate_purchaseDate (formatDate (nextDay (PDate.mk 2025 3 15))) (PDate.mk 2025 3 15)
      = false :=
  ⟨claim5_purchaseDate_validation.2.1 (PDate.mk 2025 3 15) (by decide),
   claim5_purchaseDate_validation.2.2 (PDate.mk 2025 3 15) (by decide) (by decide)⟩

/-- Claim C6: rule 7 grants its 10 points exactly when the parsed hour is 14
or 15; 16:00 earns nothing and 15:59 earns the bonus. -/
theorem claim6_afternoon_window :
    (∀ (s : String) (h m : ℕ), parseTime s = some (h, m) →
      (rule7Points s = some 10 ↔ (h = 14 ∨ h = 15))) ∧
    rule7Points ("16:00") = some 0 ∧ rule7Points ("15:59") = some 10 := by
  refine ⟨?_, by decide, by decide⟩
  intro s h m hp
  unfold rule7Points
  rw [hp]
  by_cases hc : h = 14 ∨ h = 15 <;> simp [hc]

/-- Witness for C6 at 14:30: the bonus is granted. -/
theorem claim6_witness : rule7Points ("14:30") = some 10 :=
  (claim6_afternoon_window.1 ("14:30") 14 30 (by decide)).mpr (Or.inl rfl)

/-- Claim C7: the retailer validator accepts exactly the non-empty strings
whose every character is a word character, whitespace, hyphen or ampersand;
a disallowed character anywhere, the end of the string included, rejects. -/
theorem claim7_retailer_full_match (s : String) :
    validate_retailer s = true ↔ (s.data ≠ [] ∧ ∀ c ∈ s.data, isRetailerChar c = true) := by
  unfold validate_retailer dollarQuirk
  rw [Bool.or_eq_true]
  constructor
  · rintro (h | h)
    · rw [Bool.and_eq_true] at h
      obtain ⟨hne, hall⟩ := h
      refine ⟨?_, List.all_eq_true.mp hall⟩
      intro hnil
      rw [hnil] at hne
      simp at hne
    · rcases hrev : s.data.reverse with _ | ⟨c, rest⟩
      · rw [hrev] at h
        simp at h
      · rw [hrev] at h
        rw [Bool.and_eq_true, decide_eq_true_eq] at h
        obtain ⟨hc10, hcore⟩ := h
        rw [Bool.and_eq_true] at hcore
        obtain ⟨hne, hall⟩ := hcore
        have hdata : s.data = rest.reverse ++ [c] := by
          have hrr := congrArg List.reverse hrev
          rwa [List.reverse_reverse, List.reverse_cons] at hrr
        constructor
        · rw [hdata]
          simp
        · intro x hx
          rw [hdata, List.mem_append] at hx
          rcases hx with hx | hx
          · exact List.all_eq_true.mp hall x hx
          · rw [List.mem_singleton] at hx
            rw [hx]
            exact newline_retailer c hc10
  · rintro ⟨hne, hall⟩
    left
    rw [Bool.and_eq_true]
    refine ⟨?_, List.all_eq_true.mpr hall⟩
    rcases hd : s.data with _ | ⟨x, xs⟩
    · exact absurd hd hne
    · simp

/-- Claim C8: whenever the scorer finishes on a validated receipt it returns
a nonnegative integer — every one of the seven rule contributions is
nonnegative. -/
theorem claim8_points_nonneg (today : PDate) (r : Receipt) (p : ℤ)
    (hval : receiptValid r today = true) (hcalc : calculate_points r = some p) : 0 ≤ p := by
  obtain ⟨p3, p5, p6, p7, h3, h5, h6, h7, hp⟩ := calculate_points_some_inv r p hcalc
  have n3 := rule3Points_nonneg _ _ h3
  have n5 := rule5Points_nonneg _ _ h5
  have n6 := rule6Points_nonneg _ _ h6
  have n7 := rule7Points_nonneg _ _ h7
  have hcnt : (0 : ℤ) ≤ (countAlnum r.retailer : ℤ) := Int.natCast_nonneg _
  have h50 : (0 : ℤ) ≤ (if endsWithDot00 r.total then (50 : ℤ) else 0) := by
    split_ifs <;> norm_num
  have hpair : (0 : ℤ) ≤ ((r.items.length / 2 : ℕ) * 5 : ℤ) := by positivity
  rw [hp]
  linarith

/-- Witness for C8 on the worked example receipt from the specification,
scoring 12. -/
theorem claim8_witness :
    ∃ p, calculate_points (Receipt.mk ("Target") ("2022-01-01") ("13:01")
      [Item.mk ("Mountain Dew 12PK") ("6.49")] ("35.35")) = some p ∧ 0 ≤ p :=
  ⟨12, by decide,
    claim8_points_nonneg (PDate.mk 2025 1 1)
      (Receipt.mk ("Target") ("2022-01-01") ("13:01")
        [Item.mk ("Mountain Dew 12PK") ("6.49")] ("35.35")) 12 (by decide) (by decide)⟩

/-- Claim C9: the score of a validated receipt is invariant under any
permutation of its items — rules 4 and 5 depend only on the multiset of
items and the other rules ignore them. -/
theorem claim9_perm_invariant (today : PDate) (r : Receipt) (l : List Item)
    (hval : receiptValid r today = true) (hperm : r.items.Perm l) :
    calculate_points { r with items := l } = calculate_points r := by
  unfold calculate_points
  have h5 := rule5Points_perm l r.items hperm.symm
  have hlen : l.length = r.items.length := hperm.symm.length_eq
  dsimp only
  rw [h5, hlen]

/-- Witness for C9: swapping the two items of a concrete validated receipt
leaves calculate_points unchanged. -/
theorem claim9_witness :
    calculate_points { Receipt.mk ("Shop") ("2022-01-01") ("13:01")
        [Item.mk ("aaa") ("1.00"), Item.mk ("bb") ("2.00")] ("5.00") with
      items := [Item.mk ("bb") ("2.00"), Item.mk ("aaa") ("1.00")] } =
    calculate_points (Receipt.mk ("Shop") ("2022-01-01") ("13:01")
      [Item.mk ("aaa") ("1.00"), Item.mk ("bb") ("2.00")] ("5.00")) :=
  claim9_perm_invariant (PDate.mk 2025 1 1)
    (Receipt.mk ("Shop") ("2022-01-01") ("13:01")
      [Item.mk ("aaa") ("1.00"), Item.mk ("bb") ("2.00")] ("5.00"))
    [Item.mk ("bb") ("2.00"), Item.mk ("aaa") ("1.00")] (by decide)
    (List.Perm.swap (Item.mk ("bb") ("2.00")) (Item.mk ("aaa") ("1.00")) [])

/-- Claim C10, amended: on a validated receipt whose item prices stay below
10^298 dollars — far inside binary64 range — every internal parse and
conversion of calculate_points succeeds, so scoring returns an integer; for
astronomically long prices the claim fails (see the counterexample, where
round() on an overflowed float raises). -/
theorem claim10_bounded_totality (today : PDate) (r : Receipt)
    (hval : receiptValid r today = true)
    (hb : ∀ it ∈ r.items, ∀ c, parseCents it.price = some c → c ≤ 10 ^ 300) :
    ∃ p, calculate_points r = some p := by
  unfold receiptValid at hval
  simp only [Bool.and_eq_true] at hval
  obtain ⟨⟨⟨⟨hret, hdate⟩, htime⟩, hitems⟩, htotal⟩ := hval
  obtain ⟨ftot, hftot⟩ := Option.isSome_iff_exists.mp (validate_price_parseCents r.total htotal)
  have h3 : rule3Points r.total =
      some (if pyQuarterRemZero (floatOfCents ftot) then 25 else 0) := by
    unfold rule3Points pyFloatStr
    rw [hftot]
    rfl
  have hall : ∀ it ∈ r.items, (itemPoints it).isSome = true := by
    intro it hit
    have hv := List.all_eq_true.mp hitems it hit
    exact itemPoints_some it hv (hb it hit)
  obtain ⟨p5, h5⟩ := Option.isSome_iff_exists.mp (rule5Points_some r.items hall)
  obtain ⟨d6, hd6, hle6⟩ := validate_purchaseDate_parse r.purchaseDate today hdate
  have h6 : rule6Points r.purchaseDate = some (if d6.day % 2 = 1 then 6 else 0) := by
    unfold rule6Points
    rw [hd6]
    rfl
  obtain ⟨t7, ht7⟩ := validate_purchaseTime_parse r.purchaseTime htime
  have h7 : rule7Points r.purchaseTime = some (if t7.1 = 14 ∨ t7.1 = 15 then 10 else 0) := by
    unfold rule7Points
    rw [ht7]
    rfl
  exact ⟨_, calculate_points_eq r _ _ _ _ h3 h5 h6 h7⟩

/-- Witness for C10 on the specification's worked example receipt. -/
theorem claim10_witness :
    ∃ p, calculate_points (Receipt.mk ("Target") ("2022-01-01") ("13:01")
      [Item.mk ("Mountain Dew 12PK") ("6.49")] ("35.35")) = some p :=
  claim10_bounded_totality (PDate.mk 2025 1 1)
    (Receipt.mk ("Target") ("2022-01-01") ("13:01")
      [Item.mk ("Mountain Dew 12PK") ("6.49")] ("35.35"))
    (by decide)
    (by
      intro it hit c hc
      rw [List.mem_singleton] at hit
      subst hit
      have h649 : parseCents ("6.49") = some 649 := by decide
      rw [h649] at hc
      rw [← Option.some.inj hc]
      decide)

/-- Counterexample to C10 as stated: a validated receipt whose item price has
309 digits converts to an infinite float, and round() then raises
OverflowError, so calculate_points raises instead of returning an integer. -/
theorem claim10_counterexample :
    receiptValid (Receipt.mk ("&") ("2022-01-02") ("13:01")
      [Item.mk ("abc") (String.mk ('2' :: (List.replicate 308 '0' ++ ['.', '0', '0'])))]
      ("0.10")) (PDate.mk 2025 1 1) = true ∧
    calculate_points (Receipt.mk ("&") ("2022-01-02") ("13:01")
      [Item.mk ("abc") (String.mk ('2' :: (List.replicate 308 '0' ++ ['.', '0', '0'])))]
      ("0.10")) = none := by
  refine ⟨by decide, by decide⟩

end RP
